import Mathlib

/-!
Verification of the drawing-core of OpenAnimationLibrary/RasterVectorHybrid
(src/multithreaddraw.py) against its natural-language specification.

The Python source is shallowly embedded: the `DrawingView` state relevant to
each claim is modelled as explicit Lean structures, Qt's `QPainterPath` is
modelled as its element list (with Qt's documented element representation:
`moveTo` collapses a trailing move element, `quadTo` is stored as a cubic
curve, a curve occupies one tag-2 element followed by two tag-3 data
elements), machine doubles are modelled as exact rationals (every arithmetic
operation the claims touch is exact at the inputs concerned), and fallible
operations return `Except`/`Option`.
-/

namespace RVH

/-- A canvas point, double precision in the source, modelled exactly. -/
abbrev Point : Type := ℚ × ℚ

/-- One `QPainterPath` element: (type tag, x, y).  Tags as in Qt:
0 = MoveToElement, 1 = LineToElement, 2 = CurveToElement,
3 = CurveToDataElement. -/
abbrev Elem : Type := ℕ × ℚ × ℚ

/-- Whether the last element of a path is a move element (Qt collapses a
`moveTo` onto a trailing move element instead of appending). -/
def isMoveLast (es : List Elem) : Bool :=
  match es.getLast? with
  | some (0, _, _) => true
  | _ => false

/-- Model of `QPainterPath.moveTo`: replaces a trailing move element,
otherwise appends a move element (an empty path gains its first element). -/
def pmoveTo (es : List Elem) (x y : ℚ) : List Elem :=
  match es.getLast? with
  | some (0, _, _) => es.dropLast ++ [(0, x, y)]
  | _ => es ++ [(0, x, y)]

/-- Qt's `ensureData`: any drawing operation on an empty path first installs
an initial move element at the origin. -/
def ensurePath (es : List Elem) : List Elem :=
  if es.isEmpty then [(0, 0, 0)] else es

/-- Model of `QPainterPath.lineTo`. -/
def plineTo (es : List Elem) (x y : ℚ) : List Elem :=
  ensurePath es ++ [(1, x, y)]

/-- Model of `QPainterPath.cubicTo`: one tag-2 element (first control point)
followed by two tag-3 data elements (second control point, end point). -/
def pcubicTo (es : List Elem) (c1x c1y c2x c2y ex ey : ℚ) : List Elem :=
  ensurePath es ++ [(2, c1x, c1y), (3, c2x, c2y), (3, ex, ey)]

/-- The current point of a path: coordinates of its last element. -/
def currentPoint (es : List Elem) : Point :=
  match es.getLast? with
  | some (_, x, y) => (x, y)
  | none => (0, 0)

/-- Model of `QPainterPath.quadTo c e`: Qt converts the quadratic segment to
the cubic with control points (prev + 2c)/3 and (e + 2c)/3. -/
def pquadTo (es : List Elem) (c e : Point) : List Elem :=
  let es1 := ensurePath es
  let p := currentPoint es1
  es1 ++ [(2, (p.1 + 2 * c.1) / 3, (p.2 + 2 * c.2) / 3),
          (3, (e.1 + 2 * c.1) / 3, (e.2 + 2 * c.2) / 3),
          (3, e.1, e.2)]

/-- Model of `deque(maxlen=3).append`: append on the right, dropping from the
left so that at most the last three entries remain. -/
def dequeApp3 (w : List Point) (p : Point) : List Point :=
  let w2 := w ++ [p]
  w2.drop (w2.length - 3)

/-- Model of `DrawingView.smooth_path` (src/multithreaddraw.py:141-149):
append the new point to the 3-point sliding window; if the window now holds
exactly three points (p0, p1, p2), emit one quadratic Bezier segment with p1
as control point and p2 as end point.  Returns the new window and the emitted
segment, if any. -/
def smooth_path (w : List Point) (p : Point) : List Point × Option (Point × Point) :=
  let w2 := dequeApp3 w p
  match w2 with
  | [_, p1, p2] => (w2, some (p1, p2))
  | _ => (w2, none)

/-- State of the Smoothing Engine: the sliding window plus the list of
segments (control point, end point) emitted so far. -/
structure SmState where
  window : List Point
  segs : List (Point × Point)
deriving DecidableEq

/-- One gesture-move step: feed a point to `smooth_path`, recording any
emitted segment. -/
def smoothStep (s : SmState) (p : Point) : SmState :=
  let r := smooth_path s.window p
  { window := r.1, segs := s.segs ++ r.2.toList }

/-- A full gesture through the Smoothing Engine: the first point is recorded
at gesture-start (cleared window, point appended directly, as in
`tabletEvent`/`mousePressEvent`), every later point is a move fed to
`smooth_path`. -/
def runGesture (pts : List Point) : SmState :=
  match pts with
  | [] => { window := [], segs := [] }
  | p0 :: rest => rest.foldl smoothStep { window := [p0], segs := [] }

theorem smoothStep_full (a b c p : Point) (segs : List (Point × Point)) :
    smoothStep { window := [a, b, c], segs := segs } p =
      { window := [b, c, p], segs := segs ++ [(c, p)] } := rfl

theorem foldl_smoothStep_full (ps : List Point) :
    ∀ (a b c : Point) (segs : List (Point × Point)),
      (ps.foldl smoothStep { window := [a, b, c], segs := segs }).segs =
        segs ++ (c :: ps).zip ps := by
  induction ps with
  | nil => intro a b c segs; simp
  | cons q ps ih =>
      intro a b c segs
      rw [List.foldl_cons, smoothStep_full, ih]
      simp [List.zip]

theorem runGesture_segs (p0 p1 p2 : Point) (rest : List Point) :
    (runGesture (p0 :: p1 :: p2 :: rest)).segs =
      ((p0 :: p1 :: p2 :: rest).drop 1).zip ((p0 :: p1 :: p2 :: rest).drop 2) := by
  show ((p1 :: p2 :: rest).foldl smoothStep { window := [p0], segs := [] }).segs = _
  rw [List.foldl_cons, List.foldl_cons]
  have h1 : smoothStep { window := [p0], segs := [] } p1 =
      { window := [p0, p1], segs := [] } := rfl
  have h2 : smoothStep { window := [p0, p1], segs := [] } p2 =
      { window := [p0, p1, p2], segs := [(p1, p2)] } := rfl
  rw [h1, h2, foldl_smoothStep_full]
  simp [List.zip]

theorem zip_get? {α β : Type} (as : List α) :
    ∀ (bs : List β) (k : ℕ),
      (as.zip bs).get? k =
        (as.get? k).bind fun a => (bs.get? k).map fun b => (a, b) := by
  induction as with
  | nil => intro bs k; simp
  | cons a as ih =>
      intro bs k
      cases bs with
      | nil => simp
      | cons b bs =>
          cases k with
          | zero => simp
          | succ k => simpa using ih bs k

/-- Claim C1: for every gesture whose captured raw point sequence has N ≥ 3
points (one start point recorded at gesture-start followed by N-1 move points
fed to the Smoothing Engine), the engine emits exactly N-2 quadratic Bezier
segments, and the k-th emitted segment uses the middle point of the k-th
consecutive triple as its control point and the last point of that triple as
its end point. -/
theorem smoothing_engine_emits_triples (pts : List Point) (h : 3 ≤ pts.length) :
    (runGesture pts).segs.length = pts.length - 2 ∧
    ∀ k : ℕ, (runGesture pts).segs.get? k =
      (pts.get? (k + 1)).bind fun c => (pts.get? (k + 2)).map fun e => (c, e) := by
  match pts, h with
  | p0 :: p1 :: p2 :: rest, _ =>
    rw [runGesture_segs]
    constructor
    · rw [List.length_zip]
      simp only [List.length_drop]
      omega
    · intro k
      rw [zip_get?, List.get?_drop, List.get?_drop]
      have e1 : 1 + k = k + 1 := by omega
      have e2 : 2 + k = k + 2 := by omega
      rw [e1, e2]

theorem smoothing_engine_emits_triples_witness :
    (runGesture [((0 : ℚ), (0 : ℚ)), (1, 0), (2, 0), (3, 0)]).segs.length = 2 ∧
    (runGesture [((0 : ℚ), (0 : ℚ)), (1, 0), (2, 0), (3, 0)]).segs.get? 0 =
      some (((1 : ℚ), (0 : ℚ)), ((2 : ℚ), (0 : ℚ))) := by
  have h := smoothing_engine_emits_triples
    [((0 : ℚ), (0 : ℚ)), (1, 0), (2, 0), (3, 0)] (by decide)
  refine ⟨?_, ?_⟩
  · rw [h.1]
    decide
  · rw [h.2 0]
    decide

/-! ## Pin Registry (claim C8) -/

/-- The name of the default pin installed by `DrawingView.__init__`. -/
def defaultPinName : String := "Default Pin"

/-- A pin: a name and a canvas position. -/
structure Pin where
  name : String
  pos : Point
deriving DecidableEq

/-- The default pin at the origin (src/multithreaddraw.py:53). -/
def defaultPin : Pin := { name := defaultPinName, pos := (0, 0) }

/-- The pin list right after construction (src/multithreaddraw.py:52-54). -/
def initPins : List Pin := [defaultPin]

/-- Model of `DrawingView.add_pin` (src/multithreaddraw.py:360-362). -/
def add_pin (pins : List Pin) (name : String) (pos : Point) : List Pin :=
  pins ++ [{ name := name, pos := pos }]

/-- Model of `DrawingView.remove_pin` (src/multithreaddraw.py:364-365):
keeps exactly the pins whose name differs from the given name. -/
def remove_pin (pins : List Pin) (name : String) : List Pin :=
  pins.filter fun pin => pin.name != name

/-- A pin-registry operation. -/
inductive PinOp
  | add (name : String) (pos : Point)
  | remove (name : String)
deriving DecidableEq

/-- Apply one registry operation. -/
def applyPinOp (pins : List Pin) : PinOp → List Pin
  | .add name pos => add_pin pins name pos
  | .remove name => remove_pin pins name

/-- Apply a sequence of registry operations. -/
def applyPinOps (pins : List Pin) (ops : List PinOp) : List Pin :=
  ops.foldl applyPinOp pins

/-- Whether an operation avoids removing the default pin by name. -/
def opKeepsDefault : PinOp → Bool
  | .remove name => name != defaultPinName
  | .add _ _ => true

theorem default_mem_applyPinOps (ops : List PinOp) :
    ∀ pins : List Pin, defaultPin ∈ pins → ops.all opKeepsDefault = true →
      defaultPin ∈ applyPinOps pins ops := by
  induction ops with
  | nil => intro pins hmem _; exact hmem
  | cons op ops ih =>
      intro pins hmem hall
      rw [List.all_cons, Bool.and_eq_true] at hall
      have hstep : defaultPin ∈ applyPinOp pins op := by
        cases op with
        | add name pos => exact List.mem_append_left _ hmem
        | remove name =>
            have hname : (defaultPin.name != name) = true := by
              have := hall.1
              simp only [opKeepsDefault, defaultPin, bne_iff_ne] at this ⊢
              exact fun hc => this hc.symm
            simp only [applyPinOp, remove_pin, List.mem_filter]
            exact ⟨hmem, hname⟩
      exact ih (applyPinOp pins op) hstep hall.2

/-- Claim C8 (counterexample): removing the pin named "Default Pin" from the
freshly constructed registry leaves the registry empty, so the default pin at
(0,0) does not survive every sequence of `add_pin` and `remove_pin`
operations. -/
theorem remove_default_pin_empties_registry :
    applyPinOps initPins [PinOp.remove defaultPinName] = [] := by
  decide

/-- Claim C8 (amended): the registry always contains the default pin at (0,0)
after any sequence of `add_pin` and `remove_pin` operations in which no
`remove_pin` call targets the name "Default Pin" (and the pin list has not
been replaced by a loaded file); `remove_pin "Default Pin"` itself deletes
the default pin. -/
theorem default_pin_survives_nonremoving_ops (ops : List PinOp)
    (h : ops.all opKeepsDefault = true) :
    defaultPin ∈ applyPinOps initPins ops :=
  default_mem_applyPinOps ops initPins (by decide) h

theorem default_pin_survives_nonremoving_ops_witness :
    defaultPin ∈ applyPinOps initPins
      [PinOp.add defaultPinName ((1 : ℚ), (2 : ℚ)), PinOp.remove defaultPinName] ∨
    defaultPin ∈ applyPinOps initPins [PinOp.add defaultPinName ((1 : ℚ), (2 : ℚ))] :=
  Or.inr (default_pin_survives_nonremoving_ops
    [PinOp.add defaultPinName ((1 : ℚ), (2 : ℚ))] (by decide))

/-! ## Binarization in raster export (claim C6) -/

/-- Pure black as an (r, g, b) triple. -/
def blackRGB : ℕ × ℕ × ℕ := (0, 0, 0)

/-- Pure white as an (r, g, b) triple. -/
def whiteRGB : ℕ × ℕ × ℕ := (255, 255, 255)

/-- Model of the per-pixel binarization in `DrawingView.save_raster_image`
(src/multithreaddraw.py:307-315): brightness is the channel average
(true division, exact here), pixels strictly below 128 become black and all
others become white. -/
def binarizePixel (r g b : ℕ) : ℕ × ℕ × ℕ :=
  if ((r : ℚ) + (g : ℚ) + (b : ℚ)) / 3 < 128 then blackRGB else whiteRGB

/-- Claim C6: in raster export every pixel is binarized by average-channel
luminance with threshold 128, boundary inclusive toward white: channel
average ≥ 128 (in particular exactly 128) becomes pure white, channel
average < 128 (in particular 127) becomes pure black. -/
theorem binarize_threshold_inclusive (r g b : ℕ) :
    (128 ≤ ((r : ℚ) + (g : ℚ) + (b : ℚ)) / 3 → binarizePixel r g b = whiteRGB) ∧
    (((r : ℚ) + (g : ℚ) + (b : ℚ)) / 3 < 128 → binarizePixel r g b = blackRGB) := by
  constructor
  · intro hge
    rw [binarizePixel, if_neg (not_lt.mpr hge)]
  · intro hlt
    rw [binarizePixel, if_pos hlt]

theorem binarize_threshold_inclusive_witness :
    binarizePixel 128 128 128 = whiteRGB ∧ binarizePixel 127 127 127 = blackRGB :=
  ⟨(binarize_threshold_inclusive 128 128 128).1 (by norm_num),
   (binarize_threshold_inclusive 127 127 127).2 (by norm_num)⟩

/-! ## Raster Stroke Compositor (claim C7) -/

/-- The Python exception raised by indexing an empty list. -/
def indexErrorMsg : String := "IndexError: list index out of range"

/-- The loop of `DrawingView.process_raster_stroke`
(src/multithreaddraw.py:224-228): each consecutive pair contributes a
quadratic segment whose control point is the pair's midpoint. -/
def rasterGo (path : List Elem) (prev : Point) : List Point → List Elem
  | [] => path
  | p :: rest =>
      rasterGo (pquadTo path ((prev.1 + p.1) / 2, (prev.2 + p.2) / 2) p) p rest

/-- Model of `DrawingView.process_raster_stroke` (src/multithreaddraw.py:
218-233) restricted to the path it paints: `stroke_points[0]` raises an
IndexError on an empty capture list; otherwise the stroke path starts with a
move to the first point and adds one midpoint-smoothed quadratic segment per
further point. -/
def process_raster_stroke (stroke_points : List Point) : Except String (List Elem) :=
  match stroke_points with
  | [] => Except.error indexErrorMsg
  | p0 :: rest => Except.ok (rasterGo (pmoveTo [] p0.1 p0.2) p0 rest)

/-- Claim C7 (counterexample): invoking the Raster Stroke Compositor with
zero captured points throws an IndexError (from `self.stroke_points[0]`),
contradicting the claim that a gesture with zero or one captured point never
throws. -/
theorem zero_point_stroke_throws :
    process_raster_stroke [] = Except.error indexErrorMsg := rfl

/-- Claim C7 (amended): invoking the Raster Stroke Compositor with exactly
one captured point never throws — it degrades to a bare one-element move
path, drawing nothing; with zero captured points it raises an IndexError
from `stroke_points[0]`, a state the gesture controller never produces since
gesture-start always records a first point. -/
theorem single_point_stroke_no_throw (p : Point) :
    process_raster_stroke [p] = Except.ok [(0, p.1, p.2)] := rfl

/-! ## Canvas Controller gesture state machine (claims C5, C9) -/

/-- The drawing-relevant state of `DrawingView`: the latched stylus flag, the
gesture flag, the smoothing window, the per-gesture sample and width lists,
the current pen width, the accumulated vector path, and the list of stroke
paths committed to the raster buffer. -/
structure GState where
  use_tablet : Bool
  drawing : Bool
  last_points : List Point
  stroke_points : List Point
  stroke_pen_widths : List ℚ
  current_pen_width : ℚ
  vector_path : List Elem
  raster_strokes : List (List Elem)
deriving DecidableEq

/-- The state right after `DrawingView.__init__` (src/multithreaddraw.py:
19-70): pen width 2, stylus not yet seen, nothing drawn. -/
def initGState : GState where
  use_tablet := false
  drawing := false
  last_points := []
  stroke_points := []
  stroke_pen_widths := []
  current_pen_width := 2
  vector_path := []
  raster_strokes := []

/-- Input events: stylus (tablet) press/move/release plus any other tablet
event type, and pointer-device (mouse) press/move/release.  `left` tells
whether the mouse button is the left button; positions are scene
coordinates. -/
inductive Ev
  | tabletPress (p : Point) (pressure : ℚ)
  | tabletMove (p : Point) (pressure : ℚ)
  | tabletRelease
  | tabletOther
  | mousePress (left : Bool) (p : Point)
  | mouseMove (p : Point)
  | mouseRelease (left : Bool)
deriving DecidableEq

/-- Whether an event is a pointer-device (mouse) event. -/
def Ev.isMouse : Ev → Bool
  | .mousePress _ _ => true
  | .mouseMove _ => true
  | .mouseRelease _ => true
  | _ => false

/-- Whether an event is a stylus (tablet) event. -/
def Ev.isTablet : Ev → Bool
  | .tabletPress _ _ => true
  | .tabletMove _ _ => true
  | .tabletRelease => true
  | .tabletOther => true
  | _ => false

/-- Feed one point through the Smoothing Engine inside the controller:
updates the sliding window and, when a segment is emitted, appends the
quadratic segment to the vector path (src/multithreaddraw.py:141-149). -/
def smoothInto (s : GState) (p : Point) : GState :=
  let r := smooth_path s.last_points p
  let vp := match r.2 with
    | some (c, e) => pquadTo s.vector_path c e
    | none => s.vector_path
  { s with last_points := r.1, vector_path := vp }

/-- One step of the controller's event handling, a direct transcription of
`tabletEvent`, `mousePressEvent`, `mouseMoveEvent` and `mouseReleaseEvent`
(src/multithreaddraw.py:151-216).  Every tablet event latches `use_tablet`;
mouse handlers fall through to the superclass (no drawing-state change) when
the latch is set, the button is not the left one, or no gesture is active. -/
def step (s : GState) : Ev → Except String GState
  | .tabletPress p pr =>
      let s1 : GState := { s with use_tablet := true }
      Except.ok { s1 with
        last_points := [p]
        stroke_points := [p]
        stroke_pen_widths := [max 1 (pr * 10)]
        drawing := true
        current_pen_width := max 1 (pr * 10)
        vector_path := pmoveTo s1.vector_path p.1 p.2 }
  | .tabletMove p pr =>
      let s1 : GState := { s with use_tablet := true }
      if s1.drawing then
        let w := max 1 (pr * 10)
        let s2 := smoothInto { s1 with
          current_pen_width := w
          stroke_pen_widths := s1.stroke_pen_widths ++ [w] } p
        Except.ok { s2 with stroke_points := s2.stroke_points ++ [p] }
      else Except.ok s1
  | .tabletRelease =>
      let s1 : GState := { s with use_tablet := true }
      if s1.drawing then
        match process_raster_stroke s1.stroke_points with
        | Except.error msg => Except.error msg
        | Except.ok path =>
            Except.ok { s1 with
              raster_strokes := s1.raster_strokes ++ [path]
              drawing := false }
      else Except.ok { s1 with drawing := false }
  | .tabletOther => Except.ok { s with use_tablet := true }
  | .mousePress left p =>
      if !s.use_tablet && left then
        Except.ok { s with
          last_points := [p]
          stroke_points := [p]
          stroke_pen_widths := []
          drawing := true
          vector_path := pmoveTo s.vector_path p.1 p.2 }
      else Except.ok s
  | .mouseMove p =>
      if !s.use_tablet && s.drawing then
        let s2 := smoothInto s p
        Except.ok { s2 with stroke_points := s2.stroke_points ++ [p] }
      else Except.ok s
  | .mouseRelease left =>
      if !s.use_tablet && left && s.drawing then
        match process_raster_stroke s.stroke_points with
        | Except.error msg => Except.error msg
        | Except.ok path =>
            Except.ok { s with
              raster_strokes := s.raster_strokes ++ [path]
              drawing := false }
      else Except.ok s

/-- Run a sequence of events, propagating any raised exception. -/
def runEvents (s : GState) : List Ev → Except String GState
  | [] => Except.ok s
  | e :: rest =>
      match step s e with
      | Except.error msg => Except.error msg
      | Except.ok s2 => runEvents s2 rest

theorem step_latch (s : GState) (e : Ev) (s2 : GState)
    (h : step s e = Except.ok s2) :
    s2.use_tablet = (s.use_tablet || e.isTablet) := by
  cases e with
  | tabletPress p pr =>
      simp only [step] at h
      injection h with h
      subst h
      simp [Ev.isTablet]
  | tabletMove p pr =>
      simp only [step] at h
      split at h <;> (injection h with h; subst h; simp [smoothInto, Ev.isTablet])
  | tabletRelease =>
      simp only [step] at h
      split at h
      · split at h
        · simp at h
        · injection h with h; subst h; simp [Ev.isTablet]
      · injection h with h; subst h; simp [Ev.isTablet]
  | tabletOther =>
      simp only [step] at h
      injection h with h
      subst h
      simp [Ev.isTablet]
  | mousePress left p =>
      simp only [step] at h
      split at h <;> (injection h with h; subst h; simp [Ev.isTablet])
  | mouseMove p =>
      simp only [step] at h
      split at h <;> (injection h with h; subst h; simp [smoothInto, Ev.isTablet])
  | mouseRelease left =>
      simp only [step] at h
      split at h
      · split at h
        · simp at h
        · injection h with h; subst h; simp [Ev.isTablet]
      · injection h with h; subst h; simp [Ev.isTablet]

theorem step_preserves_latch (s : GState) (e : Ev) (s2 : GState)
    (h : step s e = Except.ok s2) (hs : s.use_tablet = true) :
    s2.use_tablet = true := by
  rw [step_latch s e s2 h, hs, Bool.true_or]

theorem tablet_step_sets_latch (s : GState) (e : Ev) (ht : e.isTablet = true)
    (s2 : GState) (h : step s e = Except.ok s2) : s2.use_tablet = true := by
  rw [step_latch s e s2 h, ht, Bool.or_true]

theorem mouse_noop (s : GState) (e : Ev) (hm : e.isMouse = true)
    (hs : s.use_tablet = true) : step s e = Except.ok s := by
  cases e <;> simp_all [Ev.isMouse, step]

theorem runEvents_drop_mouse (evs : List Ev) :
    ∀ s : GState, s.use_tablet = true →
      runEvents s (evs.filter fun ev => !ev.isMouse) = runEvents s evs := by
  induction evs with
  | nil => intro s _; rfl
  | cons e rest ih =>
      intro s hs
      by_cases hm : e.isMouse = true
      · rw [List.filter_cons_of_neg (by simp [hm])]
        rw [ih s hs]
        show _ = runEvents s (e :: rest)
        rw [runEvents, mouse_noop s e hm hs]
      · rw [List.filter_cons_of_pos (by simp at hm; simp [hm])]
        show runEvents s _ = runEvents s (e :: rest)
        rw [runEvents, runEvents]
        cases hstep : step s e with
        | error msg => rfl
        | ok s2 => exact ih s2 (step_preserves_latch s e s2 hstep hs)

/-- Claim C5: once any stylus (tablet) event has been processed, the latched
`use_tablet` flag is set, and in any subsequent event sequence the
pointer-device (mouse) events are complete no-ops for drawing — deleting
them does not change the run, so a mouse event never starts, extends, or
commits a stroke after a stylus event has been observed. -/
theorem stylus_latch_blocks_mouse (s : GState) (e : Ev) (ht : e.isTablet = true)
    (s1 : GState) (h : step s e = Except.ok s1) (evs : List Ev) :
    s1.use_tablet = true ∧
    runEvents s1 (evs.filter fun ev => !ev.isMouse) = runEvents s1 evs := by
  have hlatch := tablet_step_sets_latch s e ht s1 h
  exact ⟨hlatch, runEvents_drop_mouse evs s1 hlatch⟩

/-- The controller state after the first stylus event arrives in the initial
state (used to witness the latch theorem at a concrete input). -/
def latchedGState : GState := { initGState with use_tablet := true }

theorem stylus_latch_blocks_mouse_witness :
    latchedGState.use_tablet = true ∧
    runEvents latchedGState
        ([Ev.mousePress true ((1 : ℚ), (1 : ℚ))].filter fun ev => !ev.isMouse) =
      runEvents latchedGState [Ev.mousePress true ((1 : ℚ), (1 : ℚ))] :=
  stylus_latch_blocks_mouse initGState Ev.tabletOther rfl latchedGState rfl
    [Ev.mousePress true ((1 : ℚ), (1 : ℚ))]

/-- Claim C9: at gesture-start (tablet press) and at every gesture-move
(tablet move while drawing) the computed pen width equals
max(1, pressure * 10), so the width has a floor of 1 unit. -/
theorem pressure_width_mapping (s : GState) (p : Point) (pr : ℚ) :
    (∀ s1 : GState, step s (Ev.tabletPress p pr) = Except.ok s1 →
      s1.current_pen_width = max 1 (pr * 10) ∧ 1 ≤ s1.current_pen_width) ∧
    (s.drawing = true → ∀ s1 : GState, step s (Ev.tabletMove p pr) = Except.ok s1 →
      s1.current_pen_width = max 1 (pr * 10) ∧ 1 ≤ s1.current_pen_width) := by
  constructor
  · intro s1 h
    simp only [step] at h
    injection h with h
    rw [← h]
    exact ⟨rfl, le_max_left 1 (pr * 10)⟩
  · intro hdraw s1 h
    simp only [step, hdraw, if_pos] at h
    injection h with h
    rw [← h]
    refine ⟨?_, ?_⟩ <;> simp [smoothInto, le_max_left]

/-- The controller state after a tablet press with pressure 1/20 (i.e. 0.05)
in the initial state. -/
def lowPressState : GState :=
  match step initGState (Ev.tabletPress ((0 : ℚ), (0 : ℚ)) (1 / 20)) with
  | Except.ok s => s
  | Except.error _ => initGState

/-- The controller state after a further tablet move with pressure 1/2. -/
def midPressState : GState :=
  match step lowPressState (Ev.tabletMove ((1 : ℚ), (1 : ℚ)) (1 / 2)) with
  | Except.ok s => s
  | Except.error _ => lowPressState

theorem pressure_width_mapping_witness :
    lowPressState.current_pen_width = 1 ∧ midPressState.current_pen_width = 5 := by
  have h1 := (pressure_width_mapping initGState ((0 : ℚ), (0 : ℚ)) (1 / 20)).1
    lowPressState rfl
  have h2 := (pressure_width_mapping lowPressState ((1 : ℚ), (1 : ℚ)) (1 / 2)).2
    rfl midPressState rfl
  refine ⟨h1.1.trans ?_, h2.1.trans ?_⟩ <;> norm_num

/-! ## Persistence Codec (claims C2, C3, C4, C10) -/

/-- The raster buffer as an abstract pixel image: dimensions plus pixel
data.  The PNG codec used by `QPixmap.save`/`QImage.loadFromData` is an
external library; Qt documents PNG as lossless, so it is modelled below as an
injective encoding with a total decoder. -/
structure Image where
  width : ℕ
  height : ℕ
  data : List ℕ
deriving DecidableEq

/-- Lossless PNG encoding of an image to a byte sequence (external codec
model, see `Image`). -/
def pngEncode (i : Image) : List ℕ :=
  i.width :: i.height :: i.data

/-- PNG decoding; malformed data yields a null image, as
`QImage.loadFromData` does. -/
def pngDecode : List ℕ → Image
  | w :: h :: d => { width := w, height := h, data := d }
  | _ => { width := 0, height := 0, data := [] }

/-- UTF-8 encoding of one code point (RFC 3629): one to four bytes depending
on magnitude.  `str.encode('utf-8')` in the source concatenates these per
character. -/
def utf8EncodeChar (n : ℕ) : List ℕ :=
  if n < 128 then [n]
  else if n < 2048 then [192 + n / 64, 128 + n % 64]
  else if n < 65536 then [224 + n / 4096, 128 + n / 64 % 64, 128 + n % 64]
  else [240 + n / 262144, 128 + n / 4096 % 64, 128 + n / 64 % 64, 128 + n % 64]

/-- UTF-8 encoding of a character sequence. -/
def utf8EncodeList : List Char → List ℕ
  | [] => []
  | c :: cs => utf8EncodeChar c.toNat ++ utf8EncodeList cs

/-- Model of `str.encode('utf-8')`: the UTF-8 bytes of a string. -/
def utf8Encode (s : String) : List ℕ :=
  utf8EncodeList s.data

/-- Strict decoding of one UTF-8 code point from the front of a byte
sequence, as Python's `bytes.decode('utf-8')` validates it: `none` on a
stray continuation byte, an invalid lead byte (0xC0, 0xC1, 0xF8-0xFF are
covered by the range and overlong checks), a truncated multi-byte sequence,
an overlong encoding, a surrogate code point, or a code point beyond
U+10FFFF.  On success: the code point and the remaining bytes. -/
def utf8Step (bytes : List ℕ) : Option (ℕ × List ℕ) :=
  match bytes with
  | [] => none
  | b :: bs =>
      if b < 128 then some (b, bs)
      else if b < 192 then none
      else if b < 224 then
        match bs with
        | b2 :: bs2 =>
            if b2 < 128 ∨ 192 ≤ b2 then none
            else
              let n := (b - 192) * 64 + (b2 - 128)
              if n < 128 then none else some (n, bs2)
        | [] => none
      else if b < 240 then
        match bs with
        | b2 :: b3 :: bs3 =>
            if b2 < 128 ∨ 192 ≤ b2 ∨ b3 < 128 ∨ 192 ≤ b3 then none
            else
              let n := (b - 224) * 4096 + (b2 - 128) * 64 + (b3 - 128)
              if n < 2048 ∨ (55296 ≤ n ∧ n ≤ 57343) then none else some (n, bs3)
        | _ => none
      else if b < 248 then
        match bs with
        | b2 :: b3 :: b4 :: bs4 =>
            if b2 < 128 ∨ 192 ≤ b2 ∨ b3 < 128 ∨ 192 ≤ b3 ∨ b4 < 128 ∨ 192 ≤ b4 then
              none
            else
              let n := (b - 240) * 262144 + (b2 - 128) * 4096 +
                (b3 - 128) * 64 + (b4 - 128)
              if n < 65536 ∨ 1114111 < n then none else some (n, bs4)
        | _ => none
      else none

/-- The UTF-8 decoding loop: repeatedly take one code point with `utf8Step`
until the bytes are exhausted, failing as soon as a step fails.  The fuel
argument only drives the recursion; every step consumes at least one byte,
so fuel equal to the byte count never runs out. -/
def utf8DecodeGo : ℕ → List ℕ → List Char → Option (List Char)
  | _, [], acc => some acc
  | 0, _ :: _, _ => none
  | fuel + 1, b :: bs, acc =>
      match utf8Step (b :: bs) with
      | none => none
      | some (n, rest) => utf8DecodeGo fuel rest (acc ++ [Char.ofNat n])

/-- Model of `bytes.decode('utf-8')`: `none` models the raised
UnicodeDecodeError of Python's strict decoder. -/
def utf8Decode (bs : List ℕ) : Option String :=
  (utf8DecodeGo bs.length bs []).map fun cs => String.mk cs

/-- The exception Python raises at src/multithreaddraw.py:467 when the pin
name bytes are not valid UTF-8. -/
def unicodeErrorMsg : String := "UnicodeDecodeError: invalid utf-8 in pin name"

/-- One value written to or read from the `QDataStream` backing the binary
canvas file.  `raw` carries the raw bytes of a pin name exactly as
`writeRawData`/`readRawData` transport them; decoding them back to a string
is a separate, fallible step. -/
inductive Token
  | u32 (n : ℕ)
  | u8 (n : ℕ)
  | f64 (q : ℚ)
  | bytes (bs : List ℕ)
  | raw (bs : List ℕ)
  | flag (b : Bool)
deriving DecidableEq

/-- Model of `QDataStream.readUInt32`: reads the next value; past the end of the
stream (or on a mismatched token) it yields 0. -/
def readU32 : List Token → ℕ × List Token
  | Token.u32 n :: r => (n, r)
  | [] => (0, [])
  | _ :: r => (0, r)

/-- Model of `QDataStream.readUInt8`. -/
def readU8 : List Token → ℕ × List Token
  | Token.u8 n :: r => (n, r)
  | [] => (0, [])
  | _ :: r => (0, r)

/-- Model of `QDataStream.readDouble`. -/
def readF64 : List Token → ℚ × List Token
  | Token.f64 q :: r => (q, r)
  | [] => (0, [])
  | _ :: r => (0, r)

/-- Model of `QDataStream.readBytes` (length-prefixed byte block). -/
def readBytesTok : List Token → List ℕ × List Token
  | Token.bytes bs :: r => (bs, r)
  | [] => ([], [])
  | _ :: r => ([], r)

/-- Model of `QDataStream.readRawData` for a pin name of byte length `n`:
returns the raw bytes, not yet decoded. -/
def readRawTok (_n : ℕ) : List Token → List ℕ × List Token
  | Token.raw bs :: r => (bs, r)
  | [] => ([], [])
  | _ :: r => ([], r)

/-- Model of `QDataStream.readBool`. -/
def readBoolTok : List Token → Bool × List Token
  | Token.flag b :: r => (b, r)
  | [] => (false, [])
  | _ :: r => (false, r)


/-- The canvas document: everything `save_canvas_to_file` writes and
`load_canvas_from_file` replaces. -/
structure Doc where
  raster : Image
  vector_path : List Elem
  pins : List Pin
  background_visible : Bool
  raster_bounding_rect : ℚ × ℚ × ℚ × ℚ
deriving DecidableEq

/-- Serialized form of the vector path elements: per element a uint8 type
tag and two doubles (src/multithreaddraw.py:390-394). -/
def elemTokens : List Elem → List Token
  | [] => []
  | (t, x, y) :: rest => Token.u8 t :: Token.f64 x :: Token.f64 y :: elemTokens rest

/-- Serialized form of the pin list: per pin a uint32 name byte length, the
raw UTF-8 name bytes, and two doubles (src/multithreaddraw.py:397-403). -/
def pinTokens : List Pin → List Token
  | [] => []
  | pin :: rest =>
      Token.u32 (utf8Encode pin.name).length :: Token.raw (utf8Encode pin.name) ::
        Token.f64 pin.pos.1 :: Token.f64 pin.pos.2 :: pinTokens rest

/-- The full stream written by `DrawingView.save_canvas_to_file`
(src/multithreaddraw.py:371-409): PNG byte length, PNG bytes, element count,
elements, pin count, pins, background flag. -/
def serializeDoc (d : Doc) : List Token :=
  Token.u32 (pngEncode d.raster).length :: Token.bytes (pngEncode d.raster) ::
    Token.u32 d.vector_path.length ::
      (elemTokens d.vector_path ++
        (Token.u32 d.pins.length ::
          (pinTokens d.pins ++ [Token.flag d.background_visible])))

/-- Model of `DrawingView.save_canvas_to_file` (src/multithreaddraw.py:
371-409).  `canOpen` models whether `QFile.open(WriteOnly)` succeeds; the
result is (returned boolean, written file if any, the document afterwards —
the method only reads state). -/
def save_canvas_to_file (d : Doc) (canOpen : Bool) :
    Bool × Option (List Token) × Doc :=
  if canOpen then (true, some (serializeDoc d), d) else (false, none, d)

/-- Reading `element_count` serialized elements
(src/multithreaddraw.py:428-434). -/
def readElemsTok : ℕ → List Token → List Elem × List Token
  | 0, s => ([], s)
  | n + 1, s =>
      let r1 := readU8 s
      let r2 := readF64 r1.2
      let r3 := readF64 r2.2
      let r4 := readElemsTok n r3.2
      ((r1.1, r2.1, r3.1) :: r4.1, r4.2)

/-- Reading `pin_count` serialized pins (src/multithreaddraw.py:462-470).
Each iteration reads the name length, the raw name bytes, decodes them as
UTF-8 — line 467, which raises UnicodeDecodeError on invalid bytes — then
reads the two coordinates and appends the pin.  The result is the pins
appended so far, the remaining stream, and the raised exception, if any
(the pins decoded before the failure stay applied, as in the source). -/
def readPinsLoop : ℕ → List Token → List Pin → List Pin × List Token × Option String
  | 0, s, acc => (acc, s, none)
  | n + 1, s, acc =>
      let r1 := readU32 s
      let r2 := readRawTok r1.1 r1.2
      match utf8Decode r2.1 with
      | none => (acc, r2.2, some unicodeErrorMsg)
      | some name =>
          let r3 := readF64 r2.2
          let r4 := readF64 r3.2
          readPinsLoop n r4.2 (acc ++ [{ name := name, pos := (r3.1, r4.1) }])

/-- The element-reassembly loop of `load_canvas_from_file`
(src/multithreaddraw.py:436-458): tag 0 is a moveTo, tag 1 a lineTo; tag 2
starts a cubic curve consuming the next two records (their tags unchecked),
but only when at least two further records remain — otherwise the loop
breaks; any other tag is skipped. -/
def buildPathLoop : List Elem → List Elem → List Elem
  | [], acc => acc
  | (0, x, y) :: rest, acc => buildPathLoop rest (pmoveTo acc x y)
  | (1, x, y) :: rest, acc => buildPathLoop rest (plineTo acc x y)
  | (2, x, y) :: (_, c2x, c2y) :: (_, ex, ey) :: rest, acc =>
      buildPathLoop rest (pcubicTo acc x y c2x c2y ex ey)
  | (2, _, _) :: _, acc => acc
  | (_, _, _) :: rest, acc => buildPathLoop rest acc

/-- Model of `DrawingView.load_canvas_from_file` (src/multithreaddraw.py:
411-479).  `file = none` models a file that cannot be opened: the method
returns False without touching any state.  With an opened file the fields
are replaced in source order — raster and its bounding rect (423-425),
vector path (435-459), pin list (463-470), background flag (473-475).  The
result pairs the outcome (`Except.ok` of the returned boolean, or
`Except.error` for the UnicodeDecodeError a bad pin name raises at line 467)
with the state afterwards: when the exception is raised mid-loop, the
raster, vector path, and pins decoded so far are already replaced while the
background flag still holds its prior value. -/
def load_canvas_from_file (d : Doc) (file : Option (List Token)) :
    Except String Bool × Doc :=
  match file with
  | none => (Except.ok false, d)
  | some s0 =>
      let r1 := readU32 s0
      let r2 := readBytesTok r1.2
      let raster := pngDecode r2.1
      let r3 := readU32 r2.2
      let r4 := readElemsTok r3.1 r3.2
      let vp := buildPathLoop r4.1 []
      let r5 := readU32 r4.2
      let r6 := readPinsLoop r5.1 r5.2 []
      match r6.2.2 with
      | some msg =>
          (Except.error msg,
            { raster := raster
              vector_path := vp
              pins := r6.1
              background_visible := d.background_visible
              raster_bounding_rect :=
                (0, 0, (raster.width : ℚ), (raster.height : ℚ)) })
      | none =>
          let r7 := readBoolTok r6.2.1
          (Except.ok true,
            { raster := raster
              vector_path := vp
              pins := r6.1
              background_visible := r7.1
              raster_bounding_rect :=
                (0, 0, (raster.width : ℚ), (raster.height : ℚ)) })

/-! ## Well-formed element lists

A `QPainterPath` built through `moveTo`/`lineTo`/`cubicTo`/`quadTo` always
has this shape: it starts with a move element, never holds two consecutive
move elements (Qt collapses them), and every curve is a tag-2 element
followed by exactly two tag-3 data elements. -/

/-- Well-formedness of the tail of an element list; the flag records whether
the previous element was a move element. -/
def wfBody : Bool → List Elem → Bool
  | _, [] => true
  | prevMove, (t, _, _) :: rest =>
      if t = 0 then !prevMove && wfBody true rest
      else if t = 1 then wfBody false rest
      else if t = 2 then
        match rest with
        | (t2, _, _) :: (t3, _, _) :: rest2 =>
            t2 == 3 && t3 == 3 && wfBody false rest2
        | _ => false
      else false

/-- Well-formedness of a whole element list: empty, or a move element
followed by a well-formed tail. -/
def wfElems : List Elem → Bool
  | [] => true
  | (t, _, _) :: rest => t == 0 && wfBody true rest

theorem pmoveTo_notMove (es : List Elem) (h : isMoveLast es = false) (x y : ℚ) :
    pmoveTo es x y = es ++ [(0, x, y)] := by
  unfold pmoveTo
  unfold isMoveLast at h
  rcases hl : es.getLast? with _ | ⟨⟨t, a, b⟩⟩
  · rfl
  · rcases t with _ | t
    · rw [hl] at h
      exact Bool.noConfusion (show (true : Bool) = false from h)
    · rfl

theorem ensurePath_ne (es : List Elem) (h : es ≠ []) : ensurePath es = es := by
  cases es with
  | nil => exact absurd rfl h
  | cons a l => rfl

theorem isMoveLast_move (es : List Elem) (x y : ℚ) :
    isMoveLast (es ++ [(0, x, y)]) = true := by
  unfold isMoveLast
  rw [List.getLast?_concat]

theorem isMoveLast_line (es : List Elem) (x y : ℚ) :
    isMoveLast (es ++ [(1, x, y)]) = false := by
  unfold isMoveLast
  rw [List.getLast?_concat]

theorem isMoveLast_three (es : List Elem) (a b c d e f : ℚ) :
    isMoveLast (es ++ [(2, a, b), (3, c, d), (3, e, f)]) = false := by
  have h : es ++ [(2, a, b), (3, c, d), (3, e, f)] =
      (es ++ [(2, a, b), (3, c, d)]) ++ [((3 : ℕ), e, f)] := by simp
  rw [h]
  unfold isMoveLast
  rw [List.getLast?_concat]

theorem buildLoop_wf_go : ∀ (n : ℕ) (l : List Elem), l.length ≤ n →
    ∀ (suffix acc : List Elem), acc ≠ [] → wfBody (isMoveLast acc) l = true →
    buildPathLoop (l ++ suffix) acc = buildPathLoop suffix (acc ++ l) := by
  intro n
  induction n with
  | zero =>
      intro l hl suffix acc hacc hwf
      have hnil : l = [] := List.length_eq_zero.mp (Nat.le_zero.mp hl)
      subst hnil
      simp
  | succ n ih =>
      intro l hl suffix acc hacc hwf
      rcases l with _ | ⟨⟨t, x, y⟩, rest⟩
      · simp
      rcases t with _ | t
      · -- move element
        unfold wfBody at hwf
        norm_num [Bool.and_eq_true, Bool.not_eq_true'] at hwf
        have hlen : rest.length ≤ n := by simp at hl; omega
        rw [List.cons_append]
        have hred : buildPathLoop ((0, x, y) :: (rest ++ suffix)) acc =
            buildPathLoop (rest ++ suffix) (pmoveTo acc x y) := rfl
        rw [hred, pmoveTo_notMove acc hwf.1 x y,
          ih rest hlen suffix (acc ++ [(0, x, y)]) (by simp)
            (by rw [isMoveLast_move]; exact hwf.2)]
        simp
      rcases t with _ | t
      · -- line element
        unfold wfBody at hwf
        norm_num at hwf
        have hlen : rest.length ≤ n := by simp at hl; omega
        rw [List.cons_append]
        have hred : buildPathLoop ((1, x, y) :: (rest ++ suffix)) acc =
            buildPathLoop (rest ++ suffix) (plineTo acc x y) := rfl
        have hline : plineTo acc x y = acc ++ [((1 : ℕ), x, y)] := by
          rw [plineTo, ensurePath_ne acc hacc]
        rw [hred, hline,
          ih rest hlen suffix (acc ++ [((1 : ℕ), x, y)]) (by simp)
            (by rw [isMoveLast_line]; exact hwf)]
        simp
      rcases t with _ | t
      · -- curve element: well-formedness forces two tag-3 data elements
        rcases rest with _ | ⟨⟨t2, c2x, c2y⟩, rest2⟩
        · unfold wfBody at hwf
          simp at hwf
        rcases rest2 with _ | ⟨⟨t3, ex, ey⟩, rest3⟩
        · unfold wfBody at hwf
          simp at hwf
        unfold wfBody at hwf
        norm_num [Bool.and_eq_true, beq_iff_eq] at hwf
        obtain ⟨⟨ht2, ht3⟩, hwf⟩ := hwf
        subst ht2
        subst ht3
        have hlen : rest3.length ≤ n := by simp at hl; omega
        rw [List.cons_append, List.cons_append, List.cons_append]
        have hred : buildPathLoop
            ((2, x, y) :: (3, c2x, c2y) :: (3, ex, ey) :: (rest3 ++ suffix)) acc =
            buildPathLoop (rest3 ++ suffix) (pcubicTo acc x y c2x c2y ex ey) := rfl
        have hcubic : pcubicTo acc x y c2x c2y ex ey =
            acc ++ [((2 : ℕ), x, y), ((3 : ℕ), c2x, c2y), ((3 : ℕ), ex, ey)] := by
          rw [pcubicTo, ensurePath_ne acc hacc]
        rw [hred, hcubic,
          ih rest3 hlen suffix
            (acc ++ [((2 : ℕ), x, y), ((3 : ℕ), c2x, c2y), ((3 : ℕ), ex, ey)])
            (by simp) (by rw [isMoveLast_three]; exact hwf)]
        simp
      · -- any other tag is rejected by well-formedness
        unfold wfBody at hwf
        simp at hwf

/-- Loading the exact element records saved from a well-formed path
reconstructs the same element list. -/
theorem buildPathLoop_wf (l : List Elem) (hwf : wfElems l = true) :
    buildPathLoop l [] = l := by
  rcases l with _ | ⟨⟨t, x, y⟩, rest⟩
  · rfl
  · simp only [wfElems, Bool.and_eq_true, beq_iff_eq] at hwf
    obtain ⟨ht, hwf⟩ := hwf
    subst ht
    have hred : buildPathLoop ((0, x, y) :: rest) [] =
        buildPathLoop rest (pmoveTo [] x y) := rfl
    have hmv : pmoveTo [] x y = [((0 : ℕ), x, y)] := rfl
    have := buildLoop_wf_go rest.length rest le_rfl [] [((0 : ℕ), x, y)]
      (by simp) (by rw [show isMoveLast [((0 : ℕ), x, y)] = true from rfl]; exact hwf)
    rw [hred, hmv]
    simpa using this

/-- Index-based model of the element-reassembly loop, mirroring the Python
`while i < len(elements)` of src/multithreaddraw.py:437-458 with its fallible
`elements[i]`, `elements[i+1]`, `elements[i+2]` subscripts: a subscript past
the end would raise an IndexError, modelled as `Except.error`. -/
def buildIdx (elems : List Elem) : ℕ → List Elem → Except String (List Elem)
  | i, path =>
    if h : i < elems.length then
      match elems[i]? with
      | none => Except.error indexErrorMsg
      | some (t, x, y) =>
        if t = 0 then buildIdx elems (i + 1) (pmoveTo path x y)
        else if t = 1 then buildIdx elems (i + 1) (plineTo path x y)
        else if t = 2 then
          if i + 2 < elems.length then
            match elems[i + 1]?, elems[i + 2]? with
            | some (_, c2x, c2y), some (_, ex, ey) =>
                buildIdx elems (i + 3) (pcubicTo path x y c2x c2y ex ey)
            | _, _ => Except.error indexErrorMsg
          else Except.ok path
        else buildIdx elems (i + 1) path
    else Except.ok path
  termination_by i _ => elems.length - i
  decreasing_by all_goals omega

theorem getElem?_some_drop {α : Type} (l : List α) (i : ℕ) (a : α)
    (h : l[i]? = some a) (hlt : i < l.length) :
    l.drop i = a :: l.drop (i + 1) := by
  rw [List.getElem?_eq_getElem hlt] at h
  injection h with h
  rw [List.drop_eq_getElem_cons hlt, h]

theorem buildIdx_eq_loop (elems : List Elem) :
    ∀ (fuel i : ℕ), elems.length - i ≤ fuel → ∀ path : List Elem,
      buildIdx elems i path = Except.ok (buildPathLoop (elems.drop i) path) := by
  intro fuel
  induction fuel with
  | zero =>
      intro i hf path
      have hge : elems.length ≤ i := by omega
      unfold buildIdx
      rw [dif_neg (by omega), List.drop_eq_nil_of_le hge]
      rfl
  | succ fuel ih =>
      intro i hf path
      by_cases hlt : i < elems.length
      · unfold buildIdx
        rw [dif_pos hlt]
        split
        · next heq => exact absurd (List.getElem?_eq_none_iff.mp heq) (by omega)
        · next t x y heq =>
            have hdrop : elems.drop i = (t, x, y) :: elems.drop (i + 1) :=
              getElem?_some_drop elems i (t, x, y) heq hlt
            rw [hdrop]
            rcases t with _ | t
            · rw [if_pos rfl, ih (i + 1) (by omega) (pmoveTo path x y)]
              rfl
            rcases t with _ | t
            · rw [if_neg (by omega), if_pos (by omega),
                ih (i + 1) (by omega) (plineTo path x y)]
              rfl
            rcases t with _ | t
            · rw [if_neg (by omega), if_neg (by omega), if_pos (by omega)]
              by_cases h2 : i + 2 < elems.length
              · rw [if_pos h2]
                rcases hg1 : elems[i + 1]? with _ | ⟨⟨t2, c2x, c2y⟩⟩
                · exact absurd (List.getElem?_eq_none_iff.mp hg1) (by omega)
                rcases hg2 : elems[i + 2]? with _ | ⟨⟨t3, ex, ey⟩⟩
                · exact absurd (List.getElem?_eq_none_iff.mp hg2) (by omega)
                have hdrop1 : elems.drop (i + 1) = (t2, c2x, c2y) :: elems.drop (i + 2) :=
                  getElem?_some_drop elems (i + 1) (t2, c2x, c2y) hg1 (by omega)
                have hdrop2 : elems.drop (i + 2) = (t3, ex, ey) :: elems.drop (i + 3) :=
                  getElem?_some_drop elems (i + 2) (t3, ex, ey) hg2 (by omega)
                rw [hdrop1, hdrop2]
                show buildIdx elems (i + 3) (pcubicTo path x y c2x c2y ex ey) = _
                rw [ih (i + 3) (by omega) (pcubicTo path x y c2x c2y ex ey)]
                rfl
              · rw [if_neg h2]
                rcases hd1 : elems.drop (i + 1) with _ | ⟨⟨t2, c2x, c2y⟩, tail2⟩
                · rfl
                · have htl : tail2 = [] := by
                    have hlen1 : (elems.drop (i + 1)).length = elems.length - (i + 1) :=
                      List.length_drop (i + 1) elems
                    rw [hd1] at hlen1
                    simp at hlen1
                    exact List.length_eq_zero.mp (by omega)
                  subst htl
                  rfl
            · rw [if_neg (by omega), if_neg (by omega), if_neg (by omega),
                ih (i + 1) (by omega) path]
              rfl
      · unfold buildIdx
        rw [dif_neg hlt, List.drop_eq_nil_of_le (by omega)]
        rfl

/-- Claim C4: when a curve-type element (tag 2) begins with fewer than 3
consecutive elements remaining, loading stops consuming vector elements at
that point: the index-based loop completes without any out-of-bounds read
(no `Except.error`) and the reconstructed path is exactly the consistent
reconstruction of the well-formed prefix before the truncated curve (no
change at all when that prefix is empty). -/
theorem truncated_curve_graceful_stop (before : List Elem) (x y : ℚ)
    (rest : List Elem) (hwf : wfElems before = true) (hshort : rest.length < 2) :
    buildIdx (before ++ (2, x, y) :: rest) 0 [] = Except.ok before ∧
    buildPathLoop (before ++ (2, x, y) :: rest) [] = before := by
  have hloop : buildPathLoop (before ++ (2, x, y) :: rest) [] = before := by
    rcases before with _ | ⟨⟨t, bx, b0⟩, brest⟩
    · rcases rest with _ | ⟨⟨t1, a1, b1⟩, rest1⟩
      · rfl
      rcases rest1 with _ | ⟨e2, rest2⟩
      · rfl
      · simp at hshort
        omega
    · simp only [wfElems, Bool.and_eq_true, beq_iff_eq] at hwf
      obtain ⟨ht, hwf⟩ := hwf
      subst ht
      have hred : buildPathLoop (((0, bx, b0) :: brest) ++ (2, x, y) :: rest) [] =
          buildPathLoop (brest ++ (2, x, y) :: rest) [((0 : ℕ), bx, b0)] := rfl
      rw [hred, buildLoop_wf_go brest.length brest le_rfl ((2, x, y) :: rest)
        [((0 : ℕ), bx, b0)] (by simp)
        (by rw [show isMoveLast [((0 : ℕ), bx, b0)] = true from rfl]; exact hwf)]
      rcases rest with _ | ⟨⟨t1, a1, b1⟩, rest1⟩
      · rfl
      rcases rest1 with _ | ⟨e2, rest2⟩
      · rfl
      · simp at hshort
        omega
  refine ⟨?_, hloop⟩
  rw [buildIdx_eq_loop (before ++ (2, x, y) :: rest)
    (before ++ (2, x, y) :: rest).length 0 (by omega) [], List.drop_zero, hloop]

theorem truncated_curve_graceful_stop_witness :
    buildIdx [((0 : ℕ), (1 : ℚ), (1 : ℚ)), ((2 : ℕ), (5 : ℚ), (5 : ℚ))] 0 [] =
      Except.ok [((0 : ℕ), (1 : ℚ), (1 : ℚ))] ∧
    buildPathLoop [((0 : ℕ), (1 : ℚ), (1 : ℚ)), ((2 : ℕ), (5 : ℚ), (5 : ℚ))] [] =
      [((0 : ℕ), (1 : ℚ), (1 : ℚ))] :=
  truncated_curve_graceful_stop [((0 : ℕ), (1 : ℚ), (1 : ℚ))] 5 5 []
    (by decide) (by decide)

/-! ## Round-trip and atomicity of the binary canvas format -/

theorem pngDecode_encode (i : Image) : pngDecode (pngEncode i) = i := rfl

theorem readElemsTok_roundtrip (es : List Elem) :
    ∀ s : List Token, readElemsTok es.length (elemTokens es ++ s) = (es, s) := by
  induction es with
  | nil => intro s; rfl
  | cons e rest ih =>
      intro s
      rcases e with ⟨t, x, y⟩
      show ((t, x, y) :: (readElemsTok rest.length (elemTokens rest ++ s)).1,
            (readElemsTok rest.length (elemTokens rest ++ s)).2) = ((t, x, y) :: rest, s)
      rw [ih s]

theorem utf8Step_one (b : ℕ) (bs : List ℕ) (h : b < 128) :
    utf8Step (b :: bs) = some (b, bs) := by
  show (if b < 128 then some (b, bs)
        else if b < 192 then none
        else if b < 224 then
          match bs with
          | b2 :: bs2 =>
              if b2 < 128 ∨ 192 ≤ b2 then none
              else
                let n := (b - 192) * 64 + (b2 - 128)
                if n < 128 then none else some (n, bs2)
          | [] => none
        else if b < 240 then
          match bs with
          | b2 :: b3 :: bs3 =>
              if b2 < 128 ∨ 192 ≤ b2 ∨ b3 < 128 ∨ 192 ≤ b3 then none
              else
                let n := (b - 224) * 4096 + (b2 - 128) * 64 + (b3 - 128)
                if n < 2048 ∨ (55296 ≤ n ∧ n ≤ 57343) then none else some (n, bs3)
          | _ => none
        else if b < 248 then
          match bs with
          | b2 :: b3 :: b4 :: bs4 =>
              if b2 < 128 ∨ 192 ≤ b2 ∨ b3 < 128 ∨ 192 ≤ b3 ∨ b4 < 128 ∨ 192 ≤ b4 then
                none
              else
                let n := (b - 240) * 262144 + (b2 - 128) * 4096 +
                  (b3 - 128) * 64 + (b4 - 128)
                if n < 65536 ∨ 1114111 < n then none else some (n, bs4)
          | _ => none
        else none) = some (b, bs)
  rw [if_pos h]

theorem utf8Step_two (b b2 : ℕ) (rest : List ℕ)
    (h1 : 194 ≤ b) (h2 : b < 224) (h3 : 128 ≤ b2) (h4 : b2 < 192)
    (h5 : 128 ≤ (b - 192) * 64 + (b2 - 128)) :
    utf8Step (b :: b2 :: rest) = some ((b - 192) * 64 + (b2 - 128), rest) := by
  have hstep : utf8Step (b :: b2 :: rest) =
      (if b2 < 128 ∨ 192 ≤ b2 then none
       else if (b - 192) * 64 + (b2 - 128) < 128 then none
       else some ((b - 192) * 64 + (b2 - 128), rest)) := by
    show (if b < 128 then some (b, b2 :: rest)
          else if b < 192 then none
          else if b < 224 then
            (if b2 < 128 ∨ 192 ≤ b2 then none
             else if (b - 192) * 64 + (b2 - 128) < 128 then none
             else some ((b - 192) * 64 + (b2 - 128), rest))
          else if b < 240 then
            match b2 :: rest with
            | b2' :: b3 :: bs3 =>
                if b2' < 128 ∨ 192 ≤ b2' ∨ b3 < 128 ∨ 192 ≤ b3 then none
                else
                  let n := (b - 224) * 4096 + (b2' - 128) * 64 + (b3 - 128)
                  if n < 2048 ∨ (55296 ≤ n ∧ n ≤ 57343) then none else some (n, bs3)
            | _ => none
          else if b < 248 then
            match b2 :: rest with
            | b2' :: b3 :: b4 :: bs4 =>
                if b2' < 128 ∨ 192 ≤ b2' ∨ b3 < 128 ∨ 192 ≤ b3 ∨
                    b4 < 128 ∨ 192 ≤ b4 then none
                else
                  let n := (b - 240) * 262144 + (b2' - 128) * 4096 +
                    (b3 - 128) * 64 + (b4 - 128)
                  if n < 65536 ∨ 1114111 < n then none else some (n, bs4)
            | _ => none
          else none) = _
    rw [if_neg (by omega), if_neg (by omega), if_pos (by omega)]
  rw [hstep, if_neg (by omega), if_neg (by omega)]

theorem utf8Step_three (b b2 b3 : ℕ) (rest : List ℕ)
    (h1 : 224 ≤ b) (h2 : b < 240) (h3 : 128 ≤ b2) (h4 : b2 < 192)
    (h5 : 128 ≤ b3) (h6 : b3 < 192)
    (h7 : 2048 ≤ (b - 224) * 4096 + (b2 - 128) * 64 + (b3 - 128))
    (h8 : ¬(55296 ≤ (b - 224) * 4096 + (b2 - 128) * 64 + (b3 - 128) ∧
            (b - 224) * 4096 + (b2 - 128) * 64 + (b3 - 128) ≤ 57343)) :
    utf8Step (b :: b2 :: b3 :: rest) =
      some ((b - 224) * 4096 + (b2 - 128) * 64 + (b3 - 128), rest) := by
  have hstep : utf8Step (b :: b2 :: b3 :: rest) =
      (if b2 < 128 ∨ 192 ≤ b2 ∨ b3 < 128 ∨ 192 ≤ b3 then none
       else if (b - 224) * 4096 + (b2 - 128) * 64 + (b3 - 128) < 2048 ∨
           (55296 ≤ (b - 224) * 4096 + (b2 - 128) * 64 + (b3 - 128) ∧
            (b - 224) * 4096 + (b2 - 128) * 64 + (b3 - 128) ≤ 57343) then none
       else some ((b - 224) * 4096 + (b2 - 128) * 64 + (b3 - 128), rest)) := by
    show (if b < 128 then some (b, b2 :: b3 :: rest)
          else if b < 192 then none
          else if b < 224 then
            (if b2 < 128 ∨ 192 ≤ b2 then none
             else if (b - 192) * 64 + (b2 - 128) < 128 then none
             else some ((b - 192) * 64 + (b2 - 128), b3 :: rest))
          else if b < 240 then
            (if b2 < 128 ∨ 192 ≤ b2 ∨ b3 < 128 ∨ 192 ≤ b3 then none
             else if (b - 224) * 4096 + (b2 - 128) * 64 + (b3 - 128) < 2048 ∨
                 (55296 ≤ (b - 224) * 4096 + (b2 - 128) * 64 + (b3 - 128) ∧
                  (b - 224) * 4096 + (b2 - 128) * 64 + (b3 - 128) ≤ 57343) then none
             else some ((b - 224) * 4096 + (b2 - 128) * 64 + (b3 - 128), rest))
          else if b < 248 then
            match b2 :: b3 :: rest with
            | b2' :: b3' :: b4 :: bs4 =>
                if b2' < 128 ∨ 192 ≤ b2' ∨ b3' < 128 ∨ 192 ≤ b3' ∨
                    b4 < 128 ∨ 192 ≤ b4 then none
                else
                  let n := (b - 240) * 262144 + (b2' - 128) * 4096 +
                    (b3' - 128) * 64 + (b4 - 128)
                  if n < 65536 ∨ 1114111 < n then none else some (n, bs4)
            | _ => none
          else none) = _
    rw [if_neg (by omega), if_neg (by omega), if_neg (by omega), if_pos (by omega)]
  rw [hstep, if_neg (by omega), if_neg (by omega)]

theorem utf8Step_four (b b2 b3 b4 : ℕ) (rest : List ℕ)
    (h1 : 240 ≤ b) (h2 : b < 248) (h3 : 128 ≤ b2) (h4 : b2 < 192)
    (h5 : 128 ≤ b3) (h6 : b3 < 192) (h7 : 128 ≤ b4) (h8 : b4 < 192)
    (h9 : 65536 ≤ (b - 240) * 262144 + (b2 - 128) * 4096 + (b3 - 128) * 64 + (b4 - 128))
    (h10 : (b - 240) * 262144 + (b2 - 128) * 4096 + (b3 - 128) * 64 + (b4 - 128) ≤
      1114111) :
    utf8Step (b :: b2 :: b3 :: b4 :: rest) =
      some ((b - 240) * 262144 + (b2 - 128) * 4096 + (b3 - 128) * 64 + (b4 - 128),
        rest) := by
  have hstep : utf8Step (b :: b2 :: b3 :: b4 :: rest) =
      (if b2 < 128 ∨ 192 ≤ b2 ∨ b3 < 128 ∨ 192 ≤ b3 ∨ b4 < 128 ∨ 192 ≤ b4 then none
       else if (b - 240) * 262144 + (b2 - 128) * 4096 + (b3 - 128) * 64 +
             (b4 - 128) < 65536 ∨
           1114111 < (b - 240) * 262144 + (b2 - 128) * 4096 + (b3 - 128) * 64 +
             (b4 - 128) then none
       else some ((b - 240) * 262144 + (b2 - 128) * 4096 + (b3 - 128) * 64 + (b4 - 128),
         rest)) := by
    show (if b < 128 then some (b, b2 :: b3 :: b4 :: rest)
          else if b < 192 then none
          else if b < 224 then
            (if b2 < 128 ∨ 192 ≤ b2 then none
             else if (b - 192) * 64 + (b2 - 128) < 128 then none
             else some ((b - 192) * 64 + (b2 - 128), b3 :: b4 :: rest))
          else if b < 240 then
            (if b2 < 128 ∨ 192 ≤ b2 ∨ b3 < 128 ∨ 192 ≤ b3 then none
             else if (b - 224) * 4096 + (b2 - 128) * 64 + (b3 - 128) < 2048 ∨
                 (55296 ≤ (b - 224) * 4096 + (b2 - 128) * 64 + (b3 - 128) ∧
                  (b - 224) * 4096 + (b2 - 128) * 64 + (b3 - 128) ≤ 57343) then none
             else some ((b - 224) * 4096 + (b2 - 128) * 64 + (b3 - 128), b4 :: rest))
          else if b < 248 then
            (if b2 < 128 ∨ 192 ≤ b2 ∨ b3 < 128 ∨ 192 ≤ b3 ∨ b4 < 128 ∨ 192 ≤ b4 then
               none
             else if (b - 240) * 262144 + (b2 - 128) * 4096 + (b3 - 128) * 64 +
                   (b4 - 128) < 65536 ∨
                 1114111 < (b - 240) * 262144 + (b2 - 128) * 4096 + (b3 - 128) * 64 +
                   (b4 - 128) then none
             else some ((b - 240) * 262144 + (b2 - 128) * 4096 + (b3 - 128) * 64 +
               (b4 - 128), rest))
          else none) = _
    rw [if_neg (by omega), if_neg (by omega), if_neg (by omega), if_neg (by omega),
      if_pos (by omega)]
  rw [hstep, if_neg (by omega), if_neg (by omega)]

theorem utf8Step_encodeChar (c : Char) (rest : List ℕ) :
    utf8Step (utf8EncodeChar c.toNat ++ rest) = some (c.toNat, rest) := by
  have hv : c.toNat < 55296 ∨ (57343 < c.toNat ∧ c.toNat < 1114112) := c.valid
  by_cases k1 : c.toNat < 128
  · rw [show utf8EncodeChar c.toNat = [c.toNat] from by
      unfold utf8EncodeChar; rw [if_pos k1]]
    rw [List.singleton_append, utf8Step_one c.toNat rest k1]
  by_cases k2 : c.toNat < 2048
  · rw [show utf8EncodeChar c.toNat = [192 + c.toNat / 64, 128 + c.toNat % 64] from by
      unfold utf8EncodeChar; rw [if_neg k1, if_pos k2]]
    rw [show [192 + c.toNat / 64, 128 + c.toNat % 64] ++ rest =
      (192 + c.toNat / 64) :: (128 + c.toNat % 64) :: rest from rfl]
    rw [utf8Step_two _ _ rest (by omega) (by omega) (by omega) (by omega) (by omega)]
    rw [show (192 + c.toNat / 64 - 192) * 64 + (128 + c.toNat % 64 - 128) = c.toNat
      from by omega]
  by_cases k3 : c.toNat < 65536
  · rw [show utf8EncodeChar c.toNat =
      [224 + c.toNat / 4096, 128 + c.toNat / 64 % 64, 128 + c.toNat % 64] from by
      unfold utf8EncodeChar; rw [if_neg k1, if_neg k2, if_pos k3]]
    rw [show [224 + c.toNat / 4096, 128 + c.toNat / 64 % 64, 128 + c.toNat % 64] ++ rest =
      (224 + c.toNat / 4096) :: (128 + c.toNat / 64 % 64) :: (128 + c.toNat % 64) :: rest
      from rfl]
    rw [utf8Step_three _ _ _ rest (by omega) (by omega) (by omega) (by omega)
      (by omega) (by omega) (by omega) (by omega)]
    rw [show (224 + c.toNat / 4096 - 224) * 4096 + (128 + c.toNat / 64 % 64 - 128) * 64 +
      (128 + c.toNat % 64 - 128) = c.toNat from by omega]
  · rw [show utf8EncodeChar c.toNat =
      [240 + c.toNat / 262144, 128 + c.toNat / 4096 % 64, 128 + c.toNat / 64 % 64,
        128 + c.toNat % 64] from by
      unfold utf8EncodeChar; rw [if_neg k1, if_neg k2, if_neg k3]]
    rw [show [240 + c.toNat / 262144, 128 + c.toNat / 4096 % 64, 128 + c.toNat / 64 % 64,
        128 + c.toNat % 64] ++ rest =
      (240 + c.toNat / 262144) :: (128 + c.toNat / 4096 % 64) ::
        (128 + c.toNat / 64 % 64) :: (128 + c.toNat % 64) :: rest from rfl]
    rw [utf8Step_four _ _ _ _ rest (by omega) (by omega) (by omega) (by omega)
      (by omega) (by omega) (by omega) (by omega) (by omega) (by omega)]
    rw [show (240 + c.toNat / 262144 - 240) * 262144 +
      (128 + c.toNat / 4096 % 64 - 128) * 4096 + (128 + c.toNat / 64 % 64 - 128) * 64 +
      (128 + c.toNat % 64 - 128) = c.toNat from by omega]

theorem utf8EncodeChar_ne_nil (n : ℕ) : utf8EncodeChar n ≠ [] := by
  unfold utf8EncodeChar
  split
  · simp
  split
  · simp
  split
  · simp
  · simp

theorem utf8DecodeGo_encodeList (cs : List Char) :
    ∀ (fuel : ℕ) (acc : List Char), (utf8EncodeList cs).length ≤ fuel →
      utf8DecodeGo fuel (utf8EncodeList cs) acc = some (acc ++ cs) := by
  induction cs with
  | nil =>
      intro fuel acc _
      cases fuel <;> simp [utf8EncodeList, utf8DecodeGo]
  | cons c cs ih =>
      intro fuel acc hf
      have hlenc : (utf8EncodeList (c :: cs)).length =
          (utf8EncodeChar c.toNat).length + (utf8EncodeList cs).length := by
        show (utf8EncodeChar c.toNat ++ utf8EncodeList cs).length = _
        simp
      have hlen1 : 1 ≤ (utf8EncodeChar c.toNat).length := by
        rcases hE : utf8EncodeChar c.toNat with _ | ⟨b, bs⟩
        · exact absurd hE (utf8EncodeChar_ne_nil c.toNat)
        · simp
      rcases fuel with _ | f
      · rw [hlenc] at hf
        omega
      rcases hE : utf8EncodeChar c.toNat with _ | ⟨b, bs⟩
      · exact absurd hE (utf8EncodeChar_ne_nil c.toNat)
      have hcons : utf8EncodeList (c :: cs) = b :: (bs ++ utf8EncodeList cs) := by
        show utf8EncodeChar c.toNat ++ utf8EncodeList cs = _
        rw [hE, List.cons_append]
      rw [hcons]
      have hred : utf8DecodeGo (f + 1) (b :: (bs ++ utf8EncodeList cs)) acc =
          match utf8Step (b :: (bs ++ utf8EncodeList cs)) with
          | none => none
          | some (n, rest) => utf8DecodeGo f rest (acc ++ [Char.ofNat n]) := rfl
      have hstep : utf8Step (b :: (bs ++ utf8EncodeList cs)) =
          some (c.toNat, utf8EncodeList cs) := by
        rw [show b :: (bs ++ utf8EncodeList cs) =
          utf8EncodeChar c.toNat ++ utf8EncodeList cs from by rw [hE, List.cons_append]]
        exact utf8Step_encodeChar c (utf8EncodeList cs)
      rw [hred, hstep]
      show utf8DecodeGo f (utf8EncodeList cs) (acc ++ [Char.ofNat c.toNat]) =
        some (acc ++ c :: cs)
      rw [Char.ofNat_toNat, ih f (acc ++ [c]) (by rw [hlenc] at hf; omega)]
      simp

/-- Python's strict UTF-8 decoder inverts UTF-8 encoding: decoding the
encoded bytes of any string succeeds and returns the string. -/
theorem utf8Decode_encode (s : String) : utf8Decode (utf8Encode s) = some s := by
  unfold utf8Decode utf8Encode
  rw [utf8DecodeGo_encodeList s.data (utf8EncodeList s.data).length [] le_rfl]
  rfl

theorem readPinsLoop_roundtrip (ps : List Pin) :
    ∀ (s : List Token) (acc : List Pin),
      readPinsLoop ps.length (pinTokens ps ++ s) acc = (acc ++ ps, s, none) := by
  induction ps with
  | nil =>
      intro s acc
      simp [readPinsLoop, pinTokens]
  | cons pin rest ih =>
      intro s acc
      rcases pin with ⟨name, px, py⟩
      show (match utf8Decode (utf8Encode name) with
            | none =>
                (acc,
                  Token.f64 px :: Token.f64 py :: (pinTokens rest ++ s),
                  some unicodeErrorMsg)
            | some nm =>
                readPinsLoop rest.length (pinTokens rest ++ s)
                  (acc ++ [({ name := nm, pos := (px, py) } : Pin)])) = _
      rw [utf8Decode_encode name]
      show readPinsLoop rest.length (pinTokens rest ++ s)
          (acc ++ [({ name := name, pos := (px, py) } : Pin)]) = _
      rw [ih s (acc ++ [({ name := name, pos := (px, py) } : Pin)])]
      simp

/-- Claim C2: saving a document (non-empty well-formed vector path, at least
one pin, raster with data, background flag true) with `save_canvas_to_file`
and loading the written file with `load_canvas_from_file` (from any prior
document state) succeeds and restores the vector path element list, the pin
list, the background flag, and a pixel-identical raster image. -/
theorem save_load_roundtrip (d dPrev : Doc)
    (hwf : wfElems d.vector_path = true) (hpath : d.vector_path ≠ [])
    (hpins : d.pins ≠ []) (hraster : d.raster.data ≠ [])
    (hbg : d.background_visible = true) :
    (load_canvas_from_file dPrev (save_canvas_to_file d true).2.1).1 =
      Except.ok true ∧
    (load_canvas_from_file dPrev (save_canvas_to_file d true).2.1).2.vector_path =
      d.vector_path ∧
    (load_canvas_from_file dPrev (save_canvas_to_file d true).2.1).2.pins = d.pins ∧
    (load_canvas_from_file dPrev (save_canvas_to_file d true).2.1).2.background_visible =
      d.background_visible ∧
    (load_canvas_from_file dPrev (save_canvas_to_file d true).2.1).2.raster = d.raster := by
  refine ⟨?_, ?_, ?_, ?_, ?_⟩ <;>
    simp only [save_canvas_to_file, if_pos, load_canvas_from_file, serializeDoc,
      readU32, readBytesTok, readBoolTok, readElemsTok_roundtrip,
      readPinsLoop_roundtrip, pngDecode_encode, List.nil_append,
      buildPathLoop_wf d.vector_path hwf]

/-- A document with nothing in it, used to instantiate theorems about
save/load at concrete inputs. -/
def emptyDoc : Doc where
  raster := { width := 0, height := 0, data := [] }
  vector_path := []
  pins := []
  background_visible := false
  raster_bounding_rect := (0, 0, 0, 0)

/-- A small document with a non-empty path (one move element and one cubic
curve), the default pin, raster data, and a visible background. -/
def sampleDoc : Doc where
  raster := { width := 1, height := 1, data := [0, 0, 0, 255] }
  vector_path := [(0, 0, 0), (2, 1, 1), (3, 2, 2), (3, 3, 3)]
  pins := [defaultPin]
  background_visible := true
  raster_bounding_rect := (0, 0, 0, 0)

/-- A canvas file whose single pin has the invalid UTF-8 name byte 0xFF:
empty PNG block, zero vector elements, pin count 1, name length 1, then the
bad byte.  Python's `bytes.decode('utf-8')` raises on it at
src/multithreaddraw.py:467. -/
def badPinStream : List Token :=
  [Token.u32 0, Token.bytes [9, 9, 7], Token.u32 0, Token.u32 1,
   Token.u32 1, Token.raw [255]]

/-- Claim C3 (counterexample): loading a file whose pin-name bytes are not
valid UTF-8 raises UnicodeDecodeError from line 467 after the raster, the
vector path, and the pin list have already been replaced but before the
background flag is read: the call neither completes successfully nor returns
a failure leaving the prior state untouched — a partially mutated state
(new raster, new path, emptied pins, old background flag) is the result,
refuting the claim at this concrete input. -/
theorem load_canvas_partial_mutation :
    (load_canvas_from_file sampleDoc (some badPinStream)).1 =
      Except.error unicodeErrorMsg ∧
    (load_canvas_from_file sampleDoc (some badPinStream)).2.raster ≠
      sampleDoc.raster ∧
    (load_canvas_from_file sampleDoc (some badPinStream)).2.vector_path ≠
      sampleDoc.vector_path ∧
    (load_canvas_from_file sampleDoc (some badPinStream)).2.pins ≠ sampleDoc.pins ∧
    (load_canvas_from_file sampleDoc (some badPinStream)).2.background_visible =
      sampleDoc.background_visible := by
  refine ⟨rfl, ?_, ?_, ?_, rfl⟩ <;> decide

/-- Claim C3 (amended): `load_canvas_from_file` returns failure with the
prior document untouched when the file cannot be opened, and whenever a load
of an opened file runs to completion (no UnicodeDecodeError raised, which
holds in particular for every file written by `save_canvas_to_file`) it
returns True and replaces every document field with values computed from the
file alone.  But a file whose pin-name bytes are invalid UTF-8 raises
mid-load, leaving the raster, vector path, and already-decoded pins replaced
while the background flag keeps its prior value — a partially mutated
state. -/
theorem load_canvas_atomicity_amended (d1 d2 : Doc) (file : Option (List Token)) :
    (file = none → load_canvas_from_file d1 file = (Except.ok false, d1)) ∧
    (∀ s : List Token, file = some s → ∀ b : Bool,
      (load_canvas_from_file d1 file).1 = Except.ok b →
      b = true ∧
      (load_canvas_from_file d1 file).2 = (load_canvas_from_file d2 file).2) ∧
    (∀ d : Doc, (load_canvas_from_file d1 (some (serializeDoc d))).1 =
      Except.ok true) := by
  refine ⟨?_, ?_, ?_⟩
  · intro h
    subst h
    rfl
  · intro s h b hok
    subst h
    simp only [load_canvas_from_file] at hok ⊢
    split at hok
    · next msg heq =>
        simp at hok
    · next heq =>
        simp at hok
        subst hok
        exact ⟨rfl, rfl⟩
  · intro d
    simp only [load_canvas_from_file, serializeDoc, readU32, readBytesTok,
      readBoolTok, readElemsTok_roundtrip, readPinsLoop_roundtrip, List.nil_append]

theorem load_canvas_atomicity_amended_witness :
    load_canvas_from_file emptyDoc none = (Except.ok false, emptyDoc) ∧
    (true = true ∧
      (load_canvas_from_file emptyDoc (some [])).2 =
        (load_canvas_from_file sampleDoc (some [])).2) ∧
    (load_canvas_from_file emptyDoc (some (serializeDoc sampleDoc))).1 =
      Except.ok true :=
  ⟨(load_canvas_atomicity_amended emptyDoc sampleDoc none).1 rfl,
   (load_canvas_atomicity_amended emptyDoc sampleDoc (some [])).2.1 [] rfl true rfl,
   (load_canvas_atomicity_amended emptyDoc sampleDoc none).2.2 sampleDoc⟩

theorem save_load_roundtrip_witness :
    (load_canvas_from_file emptyDoc (save_canvas_to_file sampleDoc true).2.1).1 =
      Except.ok true ∧
    (load_canvas_from_file emptyDoc (save_canvas_to_file sampleDoc true).2.1).2.vector_path =
      sampleDoc.vector_path ∧
    (load_canvas_from_file emptyDoc (save_canvas_to_file sampleDoc true).2.1).2.pins =
      sampleDoc.pins ∧
    (load_canvas_from_file emptyDoc
        (save_canvas_to_file sampleDoc true).2.1).2.background_visible =
      sampleDoc.background_visible ∧
    (load_canvas_from_file emptyDoc (save_canvas_to_file sampleDoc true).2.1).2.raster =
      sampleDoc.raster :=
  save_load_roundtrip sampleDoc emptyDoc (by decide) (by decide) (by decide)
    (by decide) rfl

/-- Claim C10: `save_canvas_to_file` never mutates the in-memory document:
whether it succeeds or fails to open the file, the vector path, raster
buffer, raster bounding box, pin list, and background flag afterwards all
equal their values before the call. -/
theorem save_canvas_no_mutation (d : Doc) (canOpen : Bool) :
    (save_canvas_to_file d canOpen).2.2 = d ∧
    (save_canvas_to_file d canOpen).2.2.vector_path = d.vector_path ∧
    (save_canvas_to_file d canOpen).2.2.raster = d.raster ∧
    (save_canvas_to_file d canOpen).2.2.raster_bounding_rect = d.raster_bounding_rect ∧
    (save_canvas_to_file d canOpen).2.2.pins = d.pins ∧
    (save_canvas_to_file d canOpen).2.2.background_visible = d.background_visible := by
  cases canOpen <;> exact ⟨rfl, rfl, rfl, rfl, rfl, rfl⟩

end RVH
